import Mathlib

/-!
# Verification of `removebg_batch.py`

A shallow embedding of the batch image processor in `src/removebg_batch.py`.

Modelling conventions:
* Filesystem paths are `String`s; `Path.resolve()` is an abstract function
  `resolve : String → String` carried in the run configuration.
* Modification times and wall-clock times are `Int` (only their ordering and
  subtraction matter to the program).
* Calls into the filesystem and the external libraries (PIL decode/verify,
  rembg) are represented by per-file oracle fields recording the answer the
  call returns at that point of the run (`FileOracle`).
* Persisted filesystem mutations are recorded as an explicit event trace
  (`Ev`): direct byte writes, renames, and unlinks, tagged with the
  provenance of the bytes written (`Payload`).
* The pixel-level content of `convert_to_jpg` / `_png_bytes_to_jpg_bytes`
  is modelled separately (`convert_to_jpg`, `png_bytes_to_jpg_bytes`) on
  images given as lists of RGBA pixels.
-/

/-- Run counters: `processed`, `skipped`, `errors` in `main` (lines 236-238). -/
structure Counters where
  processed : Nat
  skipped : Nat
  errors : Nat
deriving DecidableEq, Repr

/-- Mutable per-process state of the batch loop: the counters and the
`seen : dict[Path, float]` registry (line 252), modelled as an association
list from path strings to modification times. -/
structure PassState where
  counters : Counters
  seen : List (String × Int)
deriving DecidableEq, Repr

/-- Componentwise order on counters: `a` is at most `b` in every
component. -/
def countersLE (a b : Counters) : Prop :=
  a.processed ≤ b.processed ∧ a.skipped ≤ b.skipped ∧ a.errors ≤ b.errors

/-- `seen.get(key)` on the association-list model of the Python dict. -/
def seenGet : List (String × Int) → String → Option Int
  | [], _ => none
  | (k, v) :: rest, key => if k = key then some v else seenGet rest key

/-- `seen[key] = v` on the association-list model of the Python dict. -/
def seenSet : List (String × Int) → String → Int → List (String × Int)
  | [], key, v => [(key, v)]
  | (k, w) :: rest, key, v =>
      if k = key then (k, v) :: rest else (k, w) :: seenSet rest key v

/-- Provenance of bytes persisted by the program: the normalized JPEG of a
source file (`convert_to_jpg`), the background-removed re-flattened JPEG
bytes (`remove_background_to_jpg_bytes`), or the background-removed PNG
(`remove_background`). -/
inductive Payload where
  | normJpg (src : String)
  | nobgJpg (src : String)
  | nobgPng (src : String)
deriving DecidableEq, Repr

/-- Persisted filesystem mutations performed by one pass. -/
inductive Ev where
  | write (path : String) (data : Payload)
  | rename (src : String) (dst : String)
  | unlink (path : String)
deriving DecidableEq, Repr

/-- `path.with_name(path.name + ".tmp")` used by `atomic_write` (line 145). -/
def tmpName (p : String) : String := p ++ ".tmp"

/-- `atomic_write(path, data)` (lines 144-147): write the bytes to a sibling
temporary file, then `os.replace` (atomic rename) it over the target. -/
def atomic_write (path : String) (data : Payload) : List Ev :=
  [Ev.write (tmpName path) data, Ev.rename (tmpName path) path]

/-- `True` iff the trace contains no direct `write` event at `target`:
any bytes reaching `target` do so only through a `rename`.  This is the
formal rendering of "every persisted write to the target goes through the
temp-file-then-atomic-rename sequence". -/
def directWriteFree (target : String) (tr : List Ev) : Bool :=
  tr.all fun ev =>
    match ev with
    | Ev.write p _ => decide (p ≠ target)
    | _ => true

/-- Index of the last `.` in a list of characters, if any
(Python `str.rfind`, restricted to `'.'`). -/
def lastDot : List Char → Option Nat
  | [] => none
  | c :: cs =>
      match lastDot cs with
      | some i => some (i + 1)
      | none => if c = '.' then some 0 else none

/-- `PurePath.suffix` of a final path component: `name[i:]` where `i` is the
index of the last dot, provided `0 < i < len(name) - 1`, else `""`. -/
def pySuffix (name : String) : String :=
  let cs := name.toList
  match lastDot cs with
  | some i => if 0 < i ∧ i + 1 < cs.length then String.mk (cs.drop i) else ""
  | none => ""

/-- `PurePath.stem` of a final path component: the name with its suffix
removed. -/
def pyStem (name : String) : String :=
  let cs := name.toList
  match lastDot cs with
  | some i => if 0 < i ∧ i + 1 < cs.length then String.mk (cs.take i) else name
  | none => name

/-- ASCII lowercasing of one character (Python `str.lower`; every
extension in the allow-list is ASCII). -/
def lowerChar (c : Char) : Char :=
  if 65 ≤ c.toNat ∧ c.toNat ≤ 90 then Char.ofNat (c.toNat + 32) else c

/-- Python `str.lower()` on a suffix string. -/
def strLower (s : String) : String := String.mk (s.toList.map lowerChar)

/-- Lexicographic code-point comparison of character lists: the order
Python uses to compare sibling path strings in `sorted(out)`. -/
def charListLe : List Char → List Char → Bool
  | [], _ => true
  | _ :: _, [] => false
  | a :: as, b :: bs =>
      if a.toNat = b.toNat then charListLe as bs
      else decide (a.toNat < b.toNat)

/-- The path order used by `sorted(out)` in `iter_candidate_files`:
lexicographic by code point (for sibling paths — all candidates are direct
children of the input directory — this coincides with `pathlib`'s
parts-tuple order). -/
def strLe (a b : String) : Prop := charListLe a.toList b.toList = true

instance : DecidableRel strLe := fun _ _ => instDecidableEqBool _ _

/-- `IMAGE_EXTS` (lines 38-47). -/
def IMAGE_EXTS : List String :=
  [".png", ".jpg", ".jpeg", ".webp", ".bmp", ".tif", ".tiff", ".gif"]

/-- `is_probably_image(path)` (lines 50-61): `False` when `path.is_file()`
is false; `True` when the lowercased suffix is in `IMAGE_EXTS`; otherwise
the result of the PIL open/verify attempt (`verifyOk`, `True` on success,
`False` on any decode failure). -/
def is_probably_image (isFile : Bool) (name : String) (verifyOk : Bool) : Bool :=
  if !isFile then false
  else if IMAGE_EXTS.contains (strLower (pySuffix name)) then true
  else verifyOk

/-- `is_stable_file(path)` (lines 216-221): a missing file is not stable;
otherwise stable iff `now - st_mtime >= min_age`. -/
def is_stable_file (min_age now : Int) (stat : Option Int) : Bool :=
  match stat with
  | none => false
  | some m => decide (min_age ≤ now - m)

/-- The run configuration fixed by `main` after argument parsing
(lines 204-221): directories, flags, and the ambient `Path.resolve`
behaviour of the filesystem. -/
structure Cfg where
  input_dir : String
  jpg_dir : String
  output_dir : String
  quality : Nat
  prefer_gpu : Bool
  skip_existing : Bool
  inplace_jpg : Bool
  watch : Bool
  min_age : Int
  resolve : String → String

/-- The answers the filesystem and the external libraries give for one
candidate file during one pass: each field records the result of the
corresponding call in the loop body (lines 262-347). -/
structure FileOracle where
  /-- final path component of `src` inside the input directory -/
  name : String
  /-- `src.is_file()` inside `is_probably_image` -/
  isFile : Bool
  /-- PIL `Image.open` + `verify` succeeds inside `is_probably_image` -/
  verifyOk : Bool
  /-- `time.time()` inside `is_stable_file` -/
  now : Int
  /-- `src.stat().st_mtime` inside `is_stable_file`; `none` = `FileNotFoundError` -/
  statStable : Option Int
  /-- `src.stat().st_mtime` at the dedup check (line 280); `none` = `FileNotFoundError` -/
  statMtime : Option Int
  /-- `convert_to_jpg` succeeds (no exception) -/
  convertOk : Bool
  /-- the background-removal call succeeds (no exception) -/
  removeOk : Bool
  /-- `target_jpg.stat().st_mtime` after the atomic write (line 315); `none` = exception -/
  targetMtime : Option Int
  /-- `out_path.exists()` in the `--skip-existing` check (line 328) -/
  outExists : Bool
  /-- `jpg_path.exists()` in the `--skip-existing` check (line 328) -/
  jpgExists : Bool
  /-- `src.unlink` raises (line 310) -/
  unlinkFails : Bool

/-- The full path of a candidate file: `input_dir / name`. -/
def srcPath (cfg : Cfg) (f : FileOracle) : String := cfg.input_dir ++ "/" ++ f.name

/-- The in-place target `input_dir / (stem + ".jpg")` (line 275). -/
def targetOf (cfg : Cfg) (f : FileOracle) : String :=
  cfg.input_dir ++ "/" ++ pyStem f.name ++ ".jpg"

/-- The classic-mode normalized JPEG path `jpg_dir / (stem + ".jpg")`
(line 325). -/
def jpgPathOf (cfg : Cfg) (f : FileOracle) : String :=
  cfg.jpg_dir ++ "/" ++ pyStem f.name ++ ".jpg"

/-- The classic-mode output path `output_dir / (stem + "_nobg.png")`
(line 326). -/
def outPathOf (cfg : Cfg) (f : FileOracle) : String :=
  cfg.output_dir ++ "/" ++ pyStem f.name ++ "_nobg.png"

/-- Shorthand: the state with one counter bumped. -/
def bumpSkipped (s : PassState) : PassState :=
  { s with counters := { s.counters with skipped := s.counters.skipped + 1 } }

/-- Shorthand: the state with one counter bumped. -/
def bumpErrors (s : PassState) : PassState :=
  { s with counters := { s.counters with errors := s.counters.errors + 1 } }

/-- The body of the `for src in files` loop of `process_once`
(lines 262-347), for one candidate file: returns the updated state and the
trace of persisted filesystem mutations it performs. -/
def processFile (cfg : Cfg) (f : FileOracle) (s : PassState) : PassState × List Ev :=
  let src := srcPath cfg f
  if !(is_stable_file cfg.min_age f.now f.statStable) then
    (bumpSkipped s, [])
  else if !(is_probably_image f.isFile f.name f.verifyOk) then
    (bumpSkipped s, [])
  else
    if cfg.inplace_jpg then
      -- In-place mode (lines 274-322)
      let target := targetOf cfg f
      match f.statMtime with
      | none => (bumpSkipped s, [])
      | some now_mtime =>
          let dedupSkip :=
            match seenGet s.seen src with
            | some last => decide (now_mtime ≤ last)
            | none => false
          if dedupSkip then (bumpSkipped s, [])
          else if !f.convertOk then (bumpErrors s, [])
          else
            let evConv := [Ev.write target (Payload.normJpg src)]
            if !f.removeOk then (bumpErrors s, evConv)
            else
              let evAtomic := atomic_write target (Payload.nobgJpg src)
              let evDel :=
                if cfg.resolve src ≠ cfg.resolve target then
                  if f.unlinkFails then [] else [Ev.unlink src]
                else []
              let seen1 :=
                match f.targetMtime with
                | some tm => seenSet s.seen target tm
                | none => s.seen
              let seen2 := seenSet seen1 src now_mtime
              ({ counters := { s.counters with processed := s.counters.processed + 1 },
                 seen := seen2 },
               evConv ++ evAtomic ++ evDel)
    else
      -- Classic mode, separate folders (lines 324-347)
      let jpgPath := jpgPathOf cfg f
      let outPath := outPathOf cfg f
      if cfg.skip_existing && f.outExists && f.jpgExists then (bumpSkipped s, [])
      else if !f.convertOk then (bumpErrors s, [])
      else if !f.removeOk then (bumpErrors s, [Ev.write jpgPath (Payload.normJpg src)])
      else
        ({ s with counters := { s.counters with processed := s.counters.processed + 1 } },
         [Ev.write jpgPath (Payload.normJpg src), Ev.write outPath (Payload.nobgPng src)])

/-- One full pass over the candidate list: `process_once` (lines 254-349),
threading the state through `processFile` and concatenating the traces. -/
def processOnce (cfg : Cfg) (files : List FileOracle) (s : PassState) : PassState × List Ev :=
  files.foldl
    (fun acc f =>
      let r := processFile cfg f acc.1
      (r.1, acc.2 ++ r.2))
    (s, [])

/-- The state after `n` watch iterations: pass `i` sees the candidate list
`passes i`; the state (counters and seen registry) is carried over, never
reset (lines 357-359). -/
def passIter (cfg : Cfg) (passes : Nat → List FileOracle) (s0 : PassState) : Nat → PassState
  | 0 => s0
  | n + 1 => (processOnce cfg (passes n) (passIter cfg passes s0 n)).1

/-- Outcome of running `main` with a given amount of observation fuel:
either the process returned an exit code, or it is still running (watch
mode) in some state. -/
inductive MainOutcome where
  | exited (code : Int)
  | running (s : PassState)
deriving Repr

/-- The `while True` watch loop (lines 357-359): each iteration runs
`process_once` and sleeps; the body contains no `return`/`break`, so the
loop only ever transitions to itself.  `fuel` bounds how many iterations we
observe. -/
def watchLoop (cfg : Cfg) (passes : Nat → List FileOracle) :
    Nat → Nat → PassState → MainOutcome
  | _, 0, s => MainOutcome.running s
  | i, fuel + 1, s =>
      watchLoop cfg passes (i + 1) fuel (processOnce cfg (passes i) s).1

/-- `main` after argument parsing (lines 206-359): exit 2 when the input
directory is missing or not a directory (`dirOk = false`); otherwise run a
pass with counters starting at zero; in non-watch mode return 0 when the
error counter is zero and 1 otherwise; in watch mode enter the infinite
loop. -/
def mainRun (cfg : Cfg) (dirOk : Bool) (passes : Nat → List FileOracle)
    (fuel : Nat) : MainOutcome :=
  if !dirOk then MainOutcome.exited 2
  else
    let s0 : PassState := { counters := ⟨0, 0, 0⟩, seen := [] }
    if !cfg.watch then
      let s1 := (processOnce cfg (passes 0) s0).1
      MainOutcome.exited (if s1.counters.errors = 0 then 0 else 1)
    else watchLoop cfg passes 0 fuel s0

/-! ## Execution-provider session creation (`_create_rembg_session`) -/

/-- onnxruntime execution providers named in the source (lines 108, 112). -/
inductive Provider where
  | CUDAExecutionProvider
  | CPUExecutionProvider
deriving DecidableEq, Repr

/-- The rembg/onnxruntime backend as seen by `_create_rembg_session`:
whether `from rembg import new_session` succeeds, and what
`new_session("u2net", providers=...)` returns for a given provider list
(a session handle, or the exception message). -/
structure RembgBackend where
  importOk : Bool
  new_session : List Provider → Except String Nat

/-- Result of session creation: the session or the propagated exception,
plus the warnings printed to stderr along the way. -/
structure SessionResult where
  result : Except String Nat
  warnings : List String
deriving Repr

/-- `_create_rembg_session(prefer_gpu)` (lines 96-115): raise if importing
rembg fails; with GPU not preferred, create a CPU-only session directly;
with GPU preferred, try `["CUDAExecutionProvider", "CPUExecutionProvider"]`
first and, on any exception, print a warning and create a CPU-only session
(whose own failure is not caught and propagates). -/
def create_rembg_session (be : RembgBackend) (prefer_gpu : Bool) : SessionResult :=
  if !be.importOk then
    { result := Except.error "rembg backend is not available in this Python environment.",
      warnings := [] }
  else if !prefer_gpu then
    { result := be.new_session [Provider.CPUExecutionProvider], warnings := [] }
  else
    match be.new_session [Provider.CUDAExecutionProvider, Provider.CPUExecutionProvider] with
    | Except.ok s => { result := Except.ok s, warnings := [] }
    | Except.error e =>
        { result := be.new_session [Provider.CPUExecutionProvider],
          warnings := ["[WARN] GPU session init failed, falling back to CPU: " ++ e] }

/-! ## Pixel-level model of JPEG normalization (`convert_to_jpg`,
`_png_bytes_to_jpg_bytes`)

The imaging library (PIL) is an external collaborator; images are modelled
as a mode tag, the `"transparency" in im.info` flag, and the list of
pixels in their RGBA interpretation.  `Image.alpha_composite` over an
opaque background is modelled by the standard over-operator with 8-bit
integer arithmetic. -/

/-- PIL image modes distinguished by `convert_to_jpg` (line 71). -/
inductive PMode where
  | RGBA
  | LA
  | P
  | RGB
  | L
  | CMYK
deriving DecidableEq, Repr

/-- An RGBA pixel with 8-bit channels. -/
structure Pix where
  r : Nat
  g : Nat
  b : Nat
  a : Nat
deriving DecidableEq, Repr

/-- An RGB pixel of the produced JPEG. -/
structure Rgb where
  r : Nat
  g : Nat
  b : Nat
deriving DecidableEq, Repr

/-- A decoded image: mode, the `"transparency" in im.info` flag, pixels. -/
structure Img where
  mode : PMode
  transparencyInfo : Bool
  pixels : List Pix
deriving DecidableEq, Repr

/-- A produced JPEG: its pixels and the encoder parameters passed to
`im.save(..., format="JPEG", quality=quality, optimize=True)`. -/
structure Jpeg where
  pixels : List Rgb
  quality : Nat
  optimize : Bool
deriving DecidableEq, Repr

/-- Models the imaging collaborator `Image.alpha_composite(white, p)` for
one pixel over the opaque white background `(255,255,255,255)`
(lines 73-74 and 88-89): the over-operator, `out = (fg*a + 255*(255-a))/255`
per channel. -/
def compositeOverWhite (p : Pix) : Rgb :=
  { r := (p.r * p.a + 255 * (255 - p.a)) / 255,
    g := (p.g * p.a + 255 * (255 - p.a)) / 255,
    b := (p.b * p.a + 255 * (255 - p.a)) / 255 }

/-- Models `im.convert("RGB")` on a pixel: keep the colour channels,
discard alpha. -/
def toRGB (p : Pix) : Rgb := { r := p.r, g := p.g, b := p.b }

/-- The branch condition of line 71:
`im.mode in ("RGBA", "LA") or (im.mode == "P" and "transparency" in im.info)`. -/
def hasAlphaOrTransparency (im : Img) : Bool :=
  im.mode == PMode.RGBA || im.mode == PMode.LA
    || (im.mode == PMode.P && im.transparencyInfo)

/-- `convert_to_jpg` (lines 64-78), pixel-level: EXIF-transpose first (the
collaborator `ImageOps.exif_transpose`, passed in as `exifT`), then either
composite onto opaque white and convert to RGB (alpha / transparent
palette), or convert directly to RGB; encode at `quality` with
`optimize=True`. -/
def convert_to_jpg (exifT : Img → Img) (quality : Nat) (im0 : Img) : Jpeg :=
  let im := exifT im0
  if hasAlphaOrTransparency im then
    { pixels := im.pixels.map compositeOverWhite, quality := quality, optimize := true }
  else
    { pixels := im.pixels.map toRGB, quality := quality, optimize := true }

/-- `_png_bytes_to_jpg_bytes` (lines 81-93), pixel-level: EXIF-transpose,
convert to RGBA if needed (pixel values unchanged in the RGBA
interpretation), composite onto opaque white unconditionally, convert to
RGB, encode at `quality` with `optimize=True`. -/
def png_bytes_to_jpg_bytes (exifT : Img → Img) (quality : Nat) (im0 : Img) : Jpeg :=
  let im := exifT im0
  { pixels := im.pixels.map compositeOverWhite, quality := quality, optimize := true }

/-! ## File discovery (`iter_candidate_files`) -/

/-- One entry of `input_dir.iterdir()`: its path, its parent path, and
whether `p.is_file()` holds. -/
structure FsEntry where
  path : String
  parent : String
  isFile : Bool
deriving DecidableEq, Repr

/-- `iter_candidate_files` (lines 223-234): keep the regular files among
the direct children of the input directory whose resolved parent is
neither the resolved jpg directory nor the resolved output directory, and
return their paths sorted. -/
def iter_candidate_files (resolve : String → String) (jpg_dir output_dir : String)
    (entries : List FsEntry) : List String :=
  let ignore : List String := [resolve jpg_dir, resolve output_dir]
  let out := (entries.filter fun e => e.isFile && !(ignore.contains (resolve e.parent))).map
    fun e => e.path
  List.insertionSort strLe out

/-! ## Concrete instances used by the closed evaluations below -/

/-- A concrete in-place run configuration: input directory `"in"`, default
generated directories, no symlinks (`resolve` is the identity). -/
def cfgIn : Cfg :=
  { input_dir := "in", jpg_dir := "in/jpg", output_dir := "in/output",
    quality := 95, prefer_gpu := false, skip_existing := false,
    inplace_jpg := true, watch := false, min_age := 2,
    resolve := fun p => p }

/-- A concrete classic-mode (separate folders) run configuration. -/
def cfgSep : Cfg :=
  { cfgIn with inplace_jpg := false }

/-- A stable PNG candidate `in/a.png` for which every external call
succeeds. -/
def fileA : FileOracle :=
  { name := "a.png", isFile := true, verifyOk := true, now := 100,
    statStable := some 0, statMtime := some 50, convertOk := true,
    removeOk := true, targetMtime := some 60, outExists := false,
    jpgExists := false, unlinkFails := false }

/-- A stable JPEG candidate `in/a.jpg` (the source path coincides with the
in-place target) whose background-removal call fails. -/
def fileAJpgRemoveFails : FileOracle :=
  { fileA with name := "a.jpg", removeOk := false }

/-- The initial pass state: zero counters, empty seen registry. -/
def st0 : PassState := { counters := ⟨0, 0, 0⟩, seen := [] }

/-- A backend on which every session construction fails (e.g. onnxruntime
cannot initialize any provider on the machine). -/
def badBackend : RembgBackend :=
  { importOk := true, new_session := fun _ => Except.error "onnxruntime init failed" }

/-- A backend with no GPU: CUDA-first construction fails, CPU-only
construction yields session `7`. -/
def cpuOnlyBackend : RembgBackend :=
  { importOk := true,
    new_session := fun ps =>
      if ps = [Provider.CPUExecutionProvider] then Except.ok 7
      else Except.error "CUDA unavailable" }

/-- A concrete RGBA image with a single fully transparent pixel. -/
def imgTransparent : Img :=
  { mode := PMode.RGBA, transparencyInfo := false, pixels := [⟨10, 20, 30, 0⟩] }









/-! ## Theorems -/

/-- **C3**: in in-place mode, a candidate whose path is in the seen
registry with a recorded modification time `last` at least the current
modification time `m` is skipped: the skip counter is incremented and
nothing else happens — no normalization, no removal, no write, no
deletion, no registry update. -/
theorem inplace_dedup_skip (cfg : Cfg) (f : FileOracle) (s : PassState) (last m : Int)
    (hmode : cfg.inplace_jpg = true)
    (hseen : seenGet s.seen (srcPath cfg f) = some last)
    (hstat : f.statMtime = some m)
    (hle : m ≤ last) :
    processFile cfg f s =
      ({ s with counters := { s.counters with skipped := s.counters.skipped + 1 } }, []) := by
  simp only [srcPath] at hseen
  cases hstab : is_stable_file cfg.min_age f.now f.statStable <;>
    cases himg : is_probably_image f.isFile f.name f.verifyOk <;>
      simp [processFile, srcPath, hmode, hstat, hseen, hle, hstab, himg, bumpSkipped]

/-- Witness for `inplace_dedup_skip` at a concrete input: `in/a.png`,
already in the registry with mtime `50`, current mtime `50`. -/
theorem inplace_dedup_skip_witness :
    processFile cfgIn fileA { st0 with seen := [("in/a.png", 50)] } =
      ({ counters := ⟨0, 1, 0⟩, seen := [("in/a.png", 50)] }, []) :=
  inplace_dedup_skip cfgIn fileA { st0 with seen := [("in/a.png", 50)] } 50 50
    (by decide) (by decide) (by decide) (by decide)

/-- **C10**: with `--inplace-jpg` set, the `--skip-existing` flag has no
effect: the state update and the event trace of one candidate are
identical whatever the flag's value. -/
theorem skip_existing_no_effect_inplace (cfg : Cfg) (b : Bool) (f : FileOracle) (s : PassState)
    (hmode : cfg.inplace_jpg = true) :
    processFile { cfg with skip_existing := b } f s = processFile cfg f s := by
  simp [processFile, hmode, srcPath, targetOf]

/-- Witness for `skip_existing_no_effect_inplace`: flipping
`--skip-existing` on the concrete in-place configuration leaves the
result of processing `in/a.png` unchanged. -/
theorem skip_existing_no_effect_inplace_witness :
    processFile { cfgIn with skip_existing := true } fileA st0 = processFile cfgIn fileA st0 :=
  skip_existing_no_effect_inplace cfgIn true fileA st0 (by decide)

/-- **C1** counterexample: on the fully successful in-place processing of
`in/a.png` (a pass that persists the final target `in/a.jpg`), the trace
contains a direct `write` at the target path — the normalization write
performed by `convert_to_jpg` at line 291 — so it is not the case that
every persisted write to the final target goes through the
temp-file-then-atomic-rename sequence. -/
theorem inplace_target_not_direct_write_free :
    (processFile cfgIn fileA st0).1.counters.processed = 1
    ∧ Ev.write "in/a.jpg" (Payload.normJpg "in/a.png") ∈ (processFile cfgIn fileA st0).2
    ∧ directWriteFree "in/a.jpg" (processFile cfgIn fileA st0).2 = false := by
  refine ⟨by decide, by decide, by decide⟩

/-- **C1** (amended): in a successful in-place processing step, the
background-removed bytes are persisted only through the temp-file-then-
atomic-rename sequence — they are written to the sibling `.tmp` path and
reach the target via a rename — while the only direct write at the target
path is the earlier normalization write of `convert_to_jpg`. -/
theorem inplace_atomic_write_of_removed_bytes (cfg : Cfg) (f : FileOracle) (s : PassState)
    (m : Int)
    (hmode : cfg.inplace_jpg = true)
    (hstab : is_stable_file cfg.min_age f.now f.statStable = true)
    (himg : is_probably_image f.isFile f.name f.verifyOk = true)
    (hstat : f.statMtime = some m)
    (hdedup : ∀ last, seenGet s.seen (srcPath cfg f) = some last → last < m)
    (hconv : f.convertOk = true)
    (hrem : f.removeOk = true) :
    (Ev.write (tmpName (targetOf cfg f)) (Payload.nobgJpg (srcPath cfg f))
        ∈ (processFile cfg f s).2
      ∧ Ev.rename (tmpName (targetOf cfg f)) (targetOf cfg f) ∈ (processFile cfg f s).2)
    ∧ (∀ p q, Ev.write p (Payload.nobgJpg q) ∈ (processFile cfg f s).2 →
        p = tmpName (targetOf cfg f))
    ∧ (∀ d, Ev.write (targetOf cfg f) d ∈ (processFile cfg f s).2 →
        d = Payload.normJpg (srcPath cfg f)) := by
  have htmp : tmpName (targetOf cfg f) ≠ targetOf cfg f := by
    intro h
    have hlen := congrArg String.length h
    simp [tmpName, String.length_append] at hlen
    exact absurd hlen (by decide)
  have htr : (processFile cfg f s).2 =
      Ev.write (targetOf cfg f) (Payload.normJpg (srcPath cfg f))
        :: (atomic_write (targetOf cfg f) (Payload.nobgJpg (srcPath cfg f))
          ++ if cfg.resolve (srcPath cfg f) = cfg.resolve (targetOf cfg f) then []
             else if f.unlinkFails = true then [] else [Ev.unlink (srcPath cfg f)]) := by
    cases hg : seenGet s.seen (srcPath cfg f) with
    | none =>
        simp only [srcPath] at hg
        simp [processFile, hmode, hstab, himg, hstat, hconv, hrem, hg, srcPath, targetOf]
    | some last =>
        have hlt : ¬ (m ≤ last) := not_le.mpr (hdedup last hg)
        simp only [srcPath] at hg
        simp [processFile, hmode, hstab, himg, hstat, hconv, hrem, hg, hlt, srcPath, targetOf]
  have hdel : ∀ ev : Ev,
      ev ∈ (if cfg.resolve (srcPath cfg f) = cfg.resolve (targetOf cfg f) then ([] : List Ev)
            else if f.unlinkFails = true then [] else [Ev.unlink (srcPath cfg f)]) →
      ev = Ev.unlink (srcPath cfg f) := by
    intro ev h
    split at h
    · simp at h
    · split at h
      · simp at h
      · simpa using h
  refine ⟨⟨?_, ?_⟩, ?_, ?_⟩
  · rw [htr]; simp [atomic_write]
  · rw [htr]; simp [atomic_write]
  · intro p q hmem
    rw [htr] at hmem
    simp only [atomic_write, List.cons_append, List.nil_append] at hmem
    rcases List.mem_cons.1 hmem with h | hmem
    · simp at h
    · rcases List.mem_cons.1 hmem with h | hmem
      · simp at h
        exact h.1
      · rcases List.mem_cons.1 hmem with h | hmem
        · simp at h
        · exact absurd (hdel _ hmem) (by simp)
  · intro d hmem
    rw [htr] at hmem
    simp only [atomic_write, List.cons_append, List.nil_append] at hmem
    rcases List.mem_cons.1 hmem with h | hmem
    · simp at h
      exact h
    · rcases List.mem_cons.1 hmem with h | hmem
      · simp at h
        exact absurd h.1.symm htmp
      · rcases List.mem_cons.1 hmem with h | hmem
        · simp at h
        · exact absurd (hdel _ hmem) (by simp)

/-- Witness for `inplace_atomic_write_of_removed_bytes` at the concrete
successful processing of `in/a.png`. -/
theorem inplace_atomic_write_of_removed_bytes_witness :
    (Ev.write (tmpName (targetOf cfgIn fileA)) (Payload.nobgJpg (srcPath cfgIn fileA))
        ∈ (processFile cfgIn fileA st0).2
      ∧ Ev.rename (tmpName (targetOf cfgIn fileA)) (targetOf cfgIn fileA)
        ∈ (processFile cfgIn fileA st0).2)
    ∧ (∀ p q, Ev.write p (Payload.nobgJpg q) ∈ (processFile cfgIn fileA st0).2 →
        p = tmpName (targetOf cfgIn fileA))
    ∧ (∀ d, Ev.write (targetOf cfgIn fileA) d ∈ (processFile cfgIn fileA st0).2 →
        d = Payload.normJpg (srcPath cfgIn fileA)) :=
  inplace_atomic_write_of_removed_bytes cfgIn fileA st0 50 (by decide) (by decide)
    (by decide) (by decide) (by intro last h; cases h) (by decide) (by decide)

/-- **C2** counterexample: in-place processing of the stable candidate
`in/a.jpg` whose background removal fails.  The error counter is
incremented, no deletion and no registry update occur — but the original
file is **not** left untouched: its path coincides with the in-place
target, and the trace shows `convert_to_jpg` has already overwritten it
with the normalized JPEG before the failure. -/
theorem inplace_remove_failure_touches_original :
    (processFile cfgIn fileAJpgRemoveFails st0).1.counters = ⟨0, 0, 1⟩
    ∧ (processFile cfgIn fileAJpgRemoveFails st0).1.seen = []
    ∧ srcPath cfgIn fileAJpgRemoveFails = "in/a.jpg"
    ∧ (processFile cfgIn fileAJpgRemoveFails st0).2 =
        [Ev.write "in/a.jpg" (Payload.normJpg "in/a.jpg")] := by
  refine ⟨by decide, by decide, by decide, by decide⟩

/-- **C2** (amended): in in-place mode, when normalization or background
removal fails for a candidate that reached the processing stage, the pass
increments the error counter only, performs no deletion and no seen-registry
update, and continues; on a normalization failure nothing has been written,
while on a background-removal failure the target jpg path — which is the
original file itself whenever the source already had the `.jpg` name — has
already received the normalized image. -/
theorem inplace_failure_no_delete_no_registry (cfg : Cfg) (f : FileOracle) (s : PassState)
    (m : Int)
    (hmode : cfg.inplace_jpg = true)
    (hstab : is_stable_file cfg.min_age f.now f.statStable = true)
    (himg : is_probably_image f.isFile f.name f.verifyOk = true)
    (hstat : f.statMtime = some m)
    (hdedup : ∀ last, seenGet s.seen (srcPath cfg f) = some last → last < m)
    (hfail : f.convertOk = false ∨ f.removeOk = false) :
    (processFile cfg f s).1.counters =
        { s.counters with errors := s.counters.errors + 1 }
    ∧ (processFile cfg f s).1.seen = s.seen
    ∧ (∀ p, Ev.unlink p ∉ (processFile cfg f s).2)
    ∧ (f.convertOk = false → (processFile cfg f s).2 = [])
    ∧ (f.convertOk = true →
        (processFile cfg f s).2 =
          [Ev.write (targetOf cfg f) (Payload.normJpg (srcPath cfg f))]) := by
  have hres : processFile cfg f s =
      (bumpErrors s,
        if f.convertOk = true
        then [Ev.write (targetOf cfg f) (Payload.normJpg (srcPath cfg f))]
        else []) := by
    cases hg : seenGet s.seen (srcPath cfg f) with
    | none =>
        simp only [srcPath] at hg
        rcases hfail with hc | hr
        · simp [processFile, hmode, hstab, himg, hstat, hg, hc, srcPath, targetOf]
        · cases hc : f.convertOk <;>
            simp [processFile, hmode, hstab, himg, hstat, hg, hc, hr, srcPath, targetOf]
    | some last =>
        have hlt : ¬ (m ≤ last) := not_le.mpr (hdedup last hg)
        simp only [srcPath] at hg
        rcases hfail with hc | hr
        · simp [processFile, hmode, hstab, himg, hstat, hg, hlt, hc, srcPath, targetOf]
        · cases hc : f.convertOk <;>
            simp [processFile, hmode, hstab, himg, hstat, hg, hlt, hc, hr, srcPath, targetOf]
  rw [hres]
  refine ⟨rfl, rfl, ?_, ?_, ?_⟩
  · intro p hp
    by_cases hc : f.convertOk = true <;> simp [hc] at hp
  · intro hc
    simp [hc]
  · intro hc
    simp [hc]

/-- Witness for `inplace_failure_no_delete_no_registry` at the concrete
failing candidate `in/a.jpg` (background removal fails). -/
theorem inplace_failure_no_delete_no_registry_witness :
    (processFile cfgIn fileAJpgRemoveFails st0).1.counters =
        { st0.counters with errors := st0.counters.errors + 1 }
    ∧ (processFile cfgIn fileAJpgRemoveFails st0).1.seen = st0.seen
    ∧ (∀ p, Ev.unlink p ∉ (processFile cfgIn fileAJpgRemoveFails st0).2)
    ∧ (fileAJpgRemoveFails.convertOk = false →
        (processFile cfgIn fileAJpgRemoveFails st0).2 = [])
    ∧ (fileAJpgRemoveFails.convertOk = true →
        (processFile cfgIn fileAJpgRemoveFails st0).2 =
          [Ev.write (targetOf cfgIn fileAJpgRemoveFails)
            (Payload.normJpg (srcPath cfgIn fileAJpgRemoveFails))]) :=
  inplace_failure_no_delete_no_registry cfgIn fileAJpgRemoveFails st0 50 (by decide)
    (by decide) (by decide) (by decide) (by intro last h; cases h) (by decide)

/-- **C8**: for an existing regular file, `is_probably_image` returns
`True` when the lowercased extension is in the fixed allow-list, and
otherwise returns the result of the PIL decode/verify attempt (`True` on
success, `False` on any decode failure); and a stable candidate failing
the check is skipped — the skip counter is incremented, the error counter
is not, and nothing else happens. -/
theorem is_probably_image_spec (name : String) (verifyOk : Bool)
    (cfg : Cfg) (f : FileOracle) (s : PassState) :
    (IMAGE_EXTS.contains (strLower (pySuffix name)) = true →
      is_probably_image true name verifyOk = true)
    ∧ (IMAGE_EXTS.contains (strLower (pySuffix name)) = false →
      is_probably_image true name verifyOk = verifyOk)
    ∧ (is_stable_file cfg.min_age f.now f.statStable = true →
      is_probably_image f.isFile f.name f.verifyOk = false →
      processFile cfg f s =
        ({ s with counters := { s.counters with skipped := s.counters.skipped + 1 } }, [])) := by
  refine ⟨?_, ?_, ?_⟩
  · intro h
    have hm : strLower (pySuffix name) ∈ IMAGE_EXTS := by simpa using h
    simp [is_probably_image, hm]
  · intro h
    have hm : strLower (pySuffix name) ∉ IMAGE_EXTS := by simpa using h
    simp [is_probably_image, hm]
  · intro hstab himg
    simp [processFile, hstab, himg, bumpSkipped]

/-- Witness for `is_probably_image_spec`: the concrete uppercase-extension
name `a.PNG` and the stable non-image candidate `in/dog.txt`. -/
theorem is_probably_image_spec_witness :
    (IMAGE_EXTS.contains (strLower (pySuffix "a.PNG")) = true →
      is_probably_image true "a.PNG" false = true)
    ∧ (IMAGE_EXTS.contains (strLower (pySuffix "a.PNG")) = false →
      is_probably_image true "a.PNG" false = false)
    ∧ (is_stable_file cfgIn.min_age ({ fileA with name := "dog.txt", verifyOk := false } : FileOracle).now
        ({ fileA with name := "dog.txt", verifyOk := false } : FileOracle).statStable = true →
      is_probably_image ({ fileA with name := "dog.txt", verifyOk := false } : FileOracle).isFile
        ({ fileA with name := "dog.txt", verifyOk := false } : FileOracle).name
        ({ fileA with name := "dog.txt", verifyOk := false } : FileOracle).verifyOk = false →
      processFile cfgIn { fileA with name := "dog.txt", verifyOk := false } st0 =
        ({ st0 with counters := { st0.counters with skipped := st0.counters.skipped + 1 } }, [])) :=
  is_probably_image_spec "a.PNG" false cfgIn { fileA with name := "dog.txt", verifyOk := false } st0

/-- **C5** counterexample: with GPU preferred, on a machine where session
construction fails for every provider list, the GPU attempt fails and the
CPU fallback's own failure propagates — the caller receives an error, not
a session.  So the fallback is not error-free for the caller in every case
where GPU initialization fails. -/
theorem gpu_fallback_can_surface_error :
    badBackend.new_session [Provider.CUDAExecutionProvider, Provider.CPUExecutionProvider]
        = Except.error "onnxruntime init failed"
    ∧ (create_rembg_session badBackend true).result = Except.error "onnxruntime init failed" :=
  ⟨rfl, rfl⟩

/-- **C5** (amended): with GPU not preferred a CPU-only session is created
directly; with GPU preferred the GPU-first provider list is attempted
first, and on its failure a warning is emitted and a CPU-only session is
created — the caller receives whatever the CPU-only construction returns
(a session whenever that fallback succeeds; its failure, however, still
propagates to the caller). -/
theorem create_rembg_session_spec (be : RembgBackend) (s : Nat) (e : String) :
    (be.importOk = true →
      create_rembg_session be false =
        { result := be.new_session [Provider.CPUExecutionProvider], warnings := [] })
    ∧ (be.importOk = true →
      be.new_session [Provider.CUDAExecutionProvider, Provider.CPUExecutionProvider]
          = Except.ok s →
      create_rembg_session be true = { result := Except.ok s, warnings := [] })
    ∧ (be.importOk = true →
      be.new_session [Provider.CUDAExecutionProvider, Provider.CPUExecutionProvider]
          = Except.error e →
      (create_rembg_session be true).result = be.new_session [Provider.CPUExecutionProvider]
        ∧ (create_rembg_session be true).warnings ≠ []) := by
  refine ⟨?_, ?_, ?_⟩
  · intro h
    simp [create_rembg_session, h]
  · intro h hok
    simp [create_rembg_session, h, hok]
  · intro h herr
    simp [create_rembg_session, h, herr]

/-- Witness for `create_rembg_session_spec` on the concrete CPU-only
backend: the GPU attempt fails, the fallback returns session `7` with a
warning emitted. -/
theorem create_rembg_session_spec_witness :
    (cpuOnlyBackend.importOk = true →
      create_rembg_session cpuOnlyBackend false =
        { result := cpuOnlyBackend.new_session [Provider.CPUExecutionProvider], warnings := [] })
    ∧ (cpuOnlyBackend.importOk = true →
      cpuOnlyBackend.new_session [Provider.CUDAExecutionProvider, Provider.CPUExecutionProvider]
          = Except.ok 7 →
      create_rembg_session cpuOnlyBackend true = { result := Except.ok 7, warnings := [] })
    ∧ (cpuOnlyBackend.importOk = true →
      cpuOnlyBackend.new_session [Provider.CUDAExecutionProvider, Provider.CPUExecutionProvider]
          = Except.error "CUDA unavailable" →
      (create_rembg_session cpuOnlyBackend true).result
          = cpuOnlyBackend.new_session [Provider.CPUExecutionProvider]
        ∧ (create_rembg_session cpuOnlyBackend true).warnings ≠ []) :=
  create_rembg_session_spec cpuOnlyBackend 7 "CUDA unavailable"

/-- **C4**: `convert_to_jpg` applies EXIF-orientation correction first and
then branches exactly on `hasAlphaOrTransparency` (alpha mode RGBA/LA or
transparency-capable palette): in that case every pixel is composited onto
opaque white before the alpha is discarded, otherwise pixels are converted
directly to RGB; the encoder parameters are the configured quality with
optimization enabled; compositing a fully transparent pixel onto the white
background yields pure white `(255,255,255)`, both in `convert_to_jpg` and
in the `_png_bytes_to_jpg_bytes` re-flattening. -/
theorem convert_to_jpg_spec (exifT : Img → Img) (q : Nat) (im : Img) :
    (convert_to_jpg exifT q im).quality = q
    ∧ (convert_to_jpg exifT q im).optimize = true
    ∧ (convert_to_jpg exifT q im).pixels =
        (exifT im).pixels.map
          (if hasAlphaOrTransparency (exifT im) then compositeOverWhite else toRGB)
    ∧ (∀ p : Pix, p.a = 0 → compositeOverWhite p = ⟨255, 255, 255⟩)
    ∧ (hasAlphaOrTransparency (exifT im) = true →
        ∀ (i : Nat) (p : Pix), (exifT im).pixels[i]? = some p → p.a = 0 →
          (convert_to_jpg exifT q im).pixels[i]? = some ⟨255, 255, 255⟩)
    ∧ (∀ (i : Nat) (p : Pix), (exifT im).pixels[i]? = some p → p.a = 0 →
        (png_bytes_to_jpg_bytes exifT q im).pixels[i]? = some ⟨255, 255, 255⟩) := by
  have hwhite : ∀ p : Pix, p.a = 0 → compositeOverWhite p = ⟨255, 255, 255⟩ := by
    intro p hp
    simp [compositeOverWhite, hp]
  refine ⟨?_, ?_, ?_, hwhite, ?_, ?_⟩
  · by_cases h : hasAlphaOrTransparency (exifT im) = true <;>
      simp [convert_to_jpg, h]
  · by_cases h : hasAlphaOrTransparency (exifT im) = true <;>
      simp [convert_to_jpg, h]
  · by_cases h : hasAlphaOrTransparency (exifT im) = true <;>
      simp [convert_to_jpg, h]
  · intro h i p hget hp
    simp [convert_to_jpg, h, List.getElem?_map, hget, hwhite p hp]
  · intro i p hget hp
    simp [png_bytes_to_jpg_bytes, List.getElem?_map, hget, hwhite p hp]

/-- Witness for `convert_to_jpg_spec` on a concrete RGBA image whose only
pixel is fully transparent (EXIF correction instantiated with the identity
transposition). -/
theorem convert_to_jpg_spec_witness :
    (convert_to_jpg (fun x => x) 95 imgTransparent).quality = 95
    ∧ (convert_to_jpg (fun x => x) 95 imgTransparent).optimize = true
    ∧ (convert_to_jpg (fun x => x) 95 imgTransparent).pixels =
        imgTransparent.pixels.map
          (if hasAlphaOrTransparency imgTransparent then compositeOverWhite else toRGB)
    ∧ (∀ p : Pix, p.a = 0 → compositeOverWhite p = ⟨255, 255, 255⟩)
    ∧ (hasAlphaOrTransparency imgTransparent = true →
        ∀ (i : Nat) (p : Pix), imgTransparent.pixels[i]? = some p → p.a = 0 →
          (convert_to_jpg (fun x => x) 95 imgTransparent).pixels[i]? = some ⟨255, 255, 255⟩)
    ∧ (∀ (i : Nat) (p : Pix), imgTransparent.pixels[i]? = some p → p.a = 0 →
        (png_bytes_to_jpg_bytes (fun x => x) 95 imgTransparent).pixels[i]?
          = some ⟨255, 255, 255⟩) :=
  convert_to_jpg_spec (fun x => x) 95 imgTransparent

/-- The `while True` loop body never exits: after any number of observed
iterations the process is still running. -/
theorem watchLoop_running (cfg : Cfg) (passes : Nat → List FileOracle) :
    ∀ (fuel i : Nat) (s : PassState),
      ∃ s', watchLoop cfg passes i fuel s = MainOutcome.running s' := by
  intro fuel
  induction fuel with
  | zero => intro i s; exact ⟨s, rfl⟩
  | succ n ih => intro i s; exact ih (i + 1) _

/-- **C6**: the process exit code is exactly 2 when the input directory is
missing or not a directory; in non-watch mode it is 0 when the error
counter is zero after the single pass and 1 otherwise; in watch mode the
loop never returns — after any amount of fuel it is still running. -/
theorem main_exit_codes (cfg : Cfg) (passes : Nat → List FileOracle) (fuel : Nat) :
    mainRun cfg false passes fuel = MainOutcome.exited 2
    ∧ (cfg.watch = false →
        mainRun cfg true passes fuel =
          MainOutcome.exited
            (if (processOnce cfg (passes 0)
                  { counters := ⟨0, 0, 0⟩, seen := [] }).1.counters.errors = 0
             then 0 else 1))
    ∧ (cfg.watch = true →
        ∃ s, mainRun cfg true passes fuel = MainOutcome.running s) := by
  refine ⟨rfl, ?_, ?_⟩
  · intro h
    simp [mainRun, h]
  · intro h
    simp only [mainRun, h, Bool.not_true, Bool.false_eq_true, if_false, if_true]
    exact watchLoop_running cfg passes fuel 0 _

/-- Witness for `main_exit_codes` at the concrete non-watch in-place
configuration with no candidate files. -/
theorem main_exit_codes_witness :
    mainRun cfgIn false (fun _ => []) 3 = MainOutcome.exited 2
    ∧ (cfgIn.watch = false →
        mainRun cfgIn true (fun _ => []) 3 =
          MainOutcome.exited
            (if (processOnce cfgIn ((fun _ => ([] : List FileOracle)) 0)
                  { counters := ⟨0, 0, 0⟩, seen := [] }).1.counters.errors = 0
             then 0 else 1))
    ∧ (cfgIn.watch = true →
        ∃ s, mainRun cfgIn true (fun _ => []) 3 = MainOutcome.running s) :=
  main_exit_codes cfgIn (fun _ => []) 3

/-- Every branch of the loop body increments exactly one of the three
counters by one. -/
theorem processFile_counter_increment (cfg : Cfg) (f : FileOracle) (s : PassState) :
    (processFile cfg f s).1.counters
        = { s.counters with processed := s.counters.processed + 1 }
    ∨ (processFile cfg f s).1.counters
        = { s.counters with skipped := s.counters.skipped + 1 }
    ∨ (processFile cfg f s).1.counters
        = { s.counters with errors := s.counters.errors + 1 } := by
  cases hg : seenGet s.seen (srcPath cfg f) with
  | none =>
      unfold processFile
      dsimp only
      rw [hg]
      repeat' split
      all_goals simp [bumpSkipped, bumpErrors]
  | some last =>
      unfold processFile
      dsimp only
      rw [hg]
      repeat' split
      all_goals simp [bumpSkipped, bumpErrors]

/-- `countersLE` is reflexive. -/
theorem countersLE_refl (a : Counters) : countersLE a a :=
  ⟨Nat.le_refl _, Nat.le_refl _, Nat.le_refl _⟩

/-- `countersLE` is transitive. -/
theorem countersLE_trans {a b c : Counters} (h1 : countersLE a b) (h2 : countersLE b c) :
    countersLE a c :=
  ⟨Nat.le_trans h1.1 h2.1, Nat.le_trans h1.2.1 h2.2.1, Nat.le_trans h1.2.2 h2.2.2⟩

/-- One loop-body step never decreases any counter. -/
theorem processFile_counters_step (cfg : Cfg) (f : FileOracle) (s : PassState) :
    countersLE s.counters (processFile cfg f s).1.counters := by
  rcases processFile_counter_increment cfg f s with h | h | h <;>
    rw [h] <;>
      exact ⟨by simp, by simp⟩

/-- The state component of `processOnce` is the fold of the loop body over
the candidates (the accumulated trace does not influence it). -/
theorem processOnce_state (cfg : Cfg) (files : List FileOracle) (s : PassState)
    (tr : List Ev) :
    (files.foldl
        (fun acc f =>
          let r := processFile cfg f acc.1
          (r.1, acc.2 ++ r.2)) (s, tr)).1
      = files.foldl (fun st f => (processFile cfg f st).1) s := by
  induction files generalizing s tr with
  | nil => rfl
  | cons f fs ih => simpa using ih (processFile cfg f s).1 _

/-- A whole pass never decreases any counter. -/
theorem processOnce_counters_step (cfg : Cfg) (files : List FileOracle) (s : PassState) :
    countersLE s.counters (processOnce cfg files s).1.counters := by
  rw [processOnce, processOnce_state]
  induction files generalizing s with
  | nil => exact countersLE_refl _
  | cons f fs ih =>
      exact countersLE_trans (processFile_counters_step cfg f s) (ih (processFile cfg f s).1)

/-- Counters never decrease across watch iterations and are never reset. -/
theorem passIter_monotone (cfg : Cfg) (passes : Nat → List FileOracle) (s0 : PassState) :
    ∀ m n, m ≤ n →
      countersLE (passIter cfg passes s0 m).counters (passIter cfg passes s0 n).counters := by
  intro m n h
  induction n with
  | zero =>
      cases Nat.le_zero.mp h
      exact countersLE_refl _
  | succ k ih =>
      rcases Nat.lt_succ_iff_lt_or_eq.mp (Nat.lt_succ_of_le h) with hlt | heq
      · exact countersLE_trans (ih (Nat.lt_succ_iff.mp hlt))
          (by
            show countersLE (passIter cfg passes s0 k).counters
              (passIter cfg passes s0 (k + 1)).counters
            exact processOnce_counters_step cfg (passes k) (passIter cfg passes s0 k))
      · rw [heq]
        exact countersLE_refl _

/-- **C7**: the three counters are monotonically non-decreasing across
every step of the run: each loop-body step increments exactly one counter
by one (never resetting any), a whole pass never decreases them, and after
any two watch iterations `m ≤ n` the counters at iteration `n` dominate
those at iteration `m` — they accumulate for the process lifetime. -/
theorem counters_monotone (cfg : Cfg) (f : FileOracle) (files : List FileOracle)
    (passes : Nat → List FileOracle) (s : PassState) (s0 : PassState) (m n : Nat) :
    ((processFile cfg f s).1.counters
          = { s.counters with processed := s.counters.processed + 1 }
      ∨ (processFile cfg f s).1.counters
          = { s.counters with skipped := s.counters.skipped + 1 }
      ∨ (processFile cfg f s).1.counters
          = { s.counters with errors := s.counters.errors + 1 })
    ∧ countersLE s.counters (processOnce cfg files s).1.counters
    ∧ (m ≤ n →
        countersLE (passIter cfg passes s0 m).counters (passIter cfg passes s0 n).counters) :=
  ⟨processFile_counter_increment cfg f s,
   processOnce_counters_step cfg files s,
   passIter_monotone cfg passes s0 m n⟩

/-- Witness for `counters_monotone` at concrete inputs: one file, two
passes over it. -/
theorem counters_monotone_witness :
    ((processFile cfgIn fileA st0).1.counters
          = { st0.counters with processed := st0.counters.processed + 1 }
      ∨ (processFile cfgIn fileA st0).1.counters
          = { st0.counters with skipped := st0.counters.skipped + 1 }
      ∨ (processFile cfgIn fileA st0).1.counters
          = { st0.counters with errors := st0.counters.errors + 1 })
    ∧ countersLE st0.counters (processOnce cfgIn [fileA] st0).1.counters
    ∧ (1 ≤ 2 →
        countersLE (passIter cfgIn (fun _ => [fileA]) st0 1).counters
          (passIter cfgIn (fun _ => [fileA]) st0 2).counters) :=
  counters_monotone cfgIn fileA [fileA] (fun _ => [fileA]) st0 st0 1 2

/-- The code-point order on character lists is total. -/
theorem charListLe_total : ∀ x y : List Char, charListLe x y = true ∨ charListLe y x = true := by
  intro x
  induction x with
  | nil => intro y; left; rfl
  | cons a as ih =>
      intro y
      cases y with
      | nil => right; rfl
      | cons b bs =>
          simp only [charListLe]
          by_cases hab : a.toNat = b.toNat
          · rcases ih bs with h | h
            · left; rw [if_pos hab]; exact h
            · right; rw [if_pos hab.symm]; exact h
          · rcases Nat.lt_or_ge a.toNat b.toNat with h | h
            · left; rw [if_neg hab]; exact decide_eq_true h
            · right
              have hba : ¬ b.toNat = a.toNat := fun e => hab e.symm
              rw [if_neg hba]
              exact decide_eq_true (by omega)

/-- The code-point order on character lists is transitive. -/
theorem charListLe_trans : ∀ x y z : List Char,
    charListLe x y = true → charListLe y z = true → charListLe x z = true := by
  intro x
  induction x with
  | nil => intro y z _ _; rfl
  | cons a as ih =>
      intro y z hxy hyz
      cases y with
      | nil => simp [charListLe] at hxy
      | cons b bs =>
          cases z with
          | nil => simp [charListLe] at hyz
          | cons c cs =>
              simp only [charListLe] at hxy hyz ⊢
              by_cases hab : a.toNat = b.toNat
              · rw [if_pos hab] at hxy
                by_cases hbc : b.toNat = c.toNat
                · rw [if_pos hbc] at hyz
                  rw [if_pos (hab.trans hbc)]
                  exact ih bs cs hxy hyz
                · rw [if_neg hbc] at hyz
                  have hyz2 : b.toNat < c.toNat := of_decide_eq_true hyz
                  have hac : ¬ a.toNat = c.toNat := by omega
                  rw [if_neg hac]
                  exact decide_eq_true (by omega)
              · rw [if_neg hab] at hxy
                have hxy2 : a.toNat < b.toNat := of_decide_eq_true hxy
                by_cases hbc : b.toNat = c.toNat
                · rw [if_pos hbc] at hyz
                  have hac : ¬ a.toNat = c.toNat := by omega
                  rw [if_neg hac]
                  exact decide_eq_true (by omega)
                · rw [if_neg hbc] at hyz
                  have hyz2 : b.toNat < c.toNat := of_decide_eq_true hyz
                  have hac : ¬ a.toNat = c.toNat := by omega
                  rw [if_neg hac]
                  exact decide_eq_true (by omega)

/-- **C9**: `iter_candidate_files` returns a sequence sorted by path, a
permutation of the entries kept by its filter, and its members are exactly
the regular files among the direct children of the input directory whose
resolved parent is neither the resolved jpg directory nor the resolved
output directory.  It is a pure function of the directory listing — it
performs no side effects by construction. -/
theorem iter_candidate_files_spec (resolve : String → String) (jd od : String)
    (entries : List FsEntry) :
    List.Sorted strLe (iter_candidate_files resolve jd od entries)
    ∧ (iter_candidate_files resolve jd od entries).Perm
        ((entries.filter fun e =>
            e.isFile && !(([resolve jd, resolve od] : List String).contains (resolve e.parent))).map
          fun e => e.path)
    ∧ (∀ x, x ∈ iter_candidate_files resolve jd od entries ↔
        ∃ e ∈ entries, e.path = x ∧ e.isFile = true
          ∧ resolve e.parent ≠ resolve jd ∧ resolve e.parent ≠ resolve od) := by
  haveI : IsTotal String strLe := ⟨fun a b => charListLe_total a.toList b.toList⟩
  haveI : IsTrans String strLe := ⟨fun a b c => charListLe_trans a.toList b.toList c.toList⟩
  refine ⟨List.sorted_insertionSort strLe _, List.perm_insertionSort strLe _, ?_⟩
  have hcont : ∀ y : String,
      (([resolve jd, resolve od] : List String).contains y = true) ↔
        (y = resolve jd ∨ y = resolve od) := by
    intro y
    rw [List.elem_iff]
    simp
  intro x
  unfold iter_candidate_files
  rw [List.mem_insertionSort]
  constructor
  · intro hx
    rcases List.mem_map.1 hx with ⟨e, hef, rfl⟩
    rcases List.mem_filter.1 hef with ⟨he, hcond⟩
    rw [Bool.and_eq_true] at hcond
    obtain ⟨hf, hnc⟩ := hcond
    rw [Bool.not_eq_true'] at hnc
    have hno : ¬ (resolve e.parent = resolve jd ∨ resolve e.parent = resolve od) := by
      intro hm
      have := (hcont _).mpr hm
      rw [this] at hnc
      exact absurd hnc (by simp)
    push_neg at hno
    exact ⟨e, he, rfl, hf, hno.1, hno.2⟩
  · rintro ⟨e, he, rfl, hf, hjd, hod⟩
    refine List.mem_map.2 ⟨e, List.mem_filter.2 ⟨he, ?_⟩, rfl⟩
    rw [Bool.and_eq_true]
    refine ⟨hf, ?_⟩
    have hnc : (([resolve jd, resolve od] : List String).contains (resolve e.parent)) = false := by
      rw [Bool.eq_false_iff]
      intro h
      rcases (hcont _).mp h with h | h
      · exact hjd h
      · exact hod h
    rw [Bool.not_eq_true']
    exact hnc
